import Mathlib

/-!
# Verification of the cremalink device wire protocol core

Shallow embedding of the protocol core of the `cremalink` library
(De'Longhi ECAM coffee machine client): the CRC-16 engine, the TLV
parameter codec, the command frame builder, the monitor/recipe frame
decoders, the LAN session key derivation and the AES-CBC message
wrapping, together with theorems checking the specification's claims.

Bytes are modelled as `Nat` (with explicit `% 256` masking where the
Python source masks), byte strings as `List Nat`, Python `dict`s as
association lists, and raising code as `Except String`.  Third-party
primitives that are not part of the repository (SHA-256/HMAC from
`hashlib`/`hmac`, the AES block cipher from pycryptodome) are taken as
parameters, constrained only by their standard properties where a
theorem needs them.
-/

set_option maxRecDepth 100000

namespace Cremalink

/-- Python slice `l[a:b]` for non-negative bounds (clamped, empty when
`b ≤ a`).  Negative Python indices do not occur at the call sites
modelled here (they would require a negative declared length). -/
def pySlice (l : List Nat) (a b : Nat) : List Nat :=
  (l.drop a).take (b - a)

/-- Python `l[i]`, total with default `0`; every use below is guarded by
a bounds check, mirroring the source's checked accesses. -/
def pyGet (l : List Nat) (i : Nat) : Nat :=
  l.getD i 0

/-! ## CRC16 engine — `cremalink/core/binary.py`, `crc16_ccitt` -/

/-- Polynomial from `binary.py` (`CRC16_POLY`). -/
def CRC16_POLY : Nat := 0x1021

/-- One shift iteration of the inner `for _ in range(8)` loop:
`crc = (crc << 1) ^ poly` when bit 15 is set, else `crc <<= 1`.
The Python accumulator is an unbounded int; no masking happens here. -/
def crcShift (crc : Nat) : Nat :=
  if crc &&& 0x8000 ≠ 0 then (crc <<< 1) ^^^ CRC16_POLY else crc <<< 1

/-- `n` iterations of `crcShift` (the source runs 8 per input byte). -/
def crcRounds : Nat → Nat → Nat
  | 0, crc => crc
  | n + 1, crc => crcRounds n (crcShift crc)

/-- `crc16_ccitt`: initial value `0x1D0F`, per byte `crc ^= byte << 8`
then 8 shift rounds; the final value is masked to 16 bits and emitted
as 2 big-endian bytes (`to_bytes(2, "big")`). -/
def crc16_ccitt (data : List Nat) : List Nat :=
  let crc := data.foldl (fun crc byte => crcRounds 8 (crc ^^^ (byte <<< 8))) 0x1D0F
  [(crc &&& 0xFFFF) >>> 8, (crc &&& 0xFFFF) &&& 0xFF]

/-! Specification-side CRC register machine.  The spec describes a
16-bit register: shift left by one, and XOR the polynomial exactly when
the bit shifted out (bit 15) was set. -/

/-- Modelled from the spec: one step of the 16-bit register — the bit
shifted out is bit 15 of the register; the register stays 16-bit. -/
def crcRegStep (c : Nat) : Nat :=
  if c.testBit 15 then ((c * 2) % 65536) ^^^ CRC16_POLY else (c * 2) % 65536

/-- Modelled from the spec: `n` register steps. -/
def crcRegRounds : Nat → Nat → Nat
  | 0, c => c
  | n + 1, c => crcRegRounds n (crcRegStep c)

/-- Modelled from the spec: the full register computation — initial
value `0x1D0F`, XOR each input byte into the high byte of the register,
8 steps per byte, output as big-endian 2-byte value. -/
def crc16_regSpec (data : List Nat) : List Nat :=
  let c := data.foldl (fun c b => crcRegRounds 8 (c ^^^ (b <<< 8))) 0x1D0F
  [c / 256, c % 256]

/-! ## TLV parameter codec — `cremalink/parsing/tlv/decode.py` -/

/-- Tags whose values are 2 bytes (big-endian); all others are 1 byte. -/
def TWO_BYTE_PARAMS : List Nat := [0x01, 0x09, 0x0F]

/-- Human-readable names for known parameter tags (`PARAM_NAMES`). -/
def PARAM_NAMES : List (Nat × String) :=
  [(0x01, "coffee_ml"), (0x02, "temperature"), (0x08, "double_shot"),
   (0x09, "milk_ml"), (0x0B, "foam_level"), (0x0C, "milk_first"),
   (0x0F, "water_ml"), (0x18, "pre_brew"), (0x19, "aroma"),
   (0x1B, "taste"), (0x1C, "milk_temp"), (0x1E, "recipe_type"),
   (0x20, "my_enabled"), (0x21, "my_level"), (0x23, "milk_circuit"),
   (0x24, "ice_amount"), (0x25, "cups_count"), (0x26, "batch_mode"),
   (0x27, "grinder")]

/-- Canonical encoding order used by the machine firmware (`PARAM_ORDER`). -/
def PARAM_ORDER : List Nat :=
  [0x0B, 0x0C, 0x1C, 0x19, 0x01, 0x0F, 0x1B, 0x02, 0x08,
   0x18, 0x1E, 0x20, 0x21, 0x23, 0x24, 0x25, 0x26, 0x27, 0x09]

/-- Python `dict` assignment `params[k] = v` on an insertion-ordered
association list: update in place when the key exists, append otherwise. -/
def dictInsert (params : List (Nat × Nat)) (k v : Nat) : List (Nat × Nat) :=
  if params.any (fun p => p.1 = k) then
    params.map (fun p => if p.1 = k then (k, v) else p)
  else params ++ [(k, v)]

/-- Python `dict` lookup `params.get(k)`. -/
def pyLookup (params : List (Nat × Nat)) (k : Nat) : Option Nat :=
  (params.find? (fun p => p.1 = k)).map (fun p => p.2)

/-- Python `dict` indexing `params[k]` (every use below is at a key known
to be present, so the `KeyError` branch cannot occur). -/
def lookupD (params : List (Nat × Nat)) (k : Nat) : Nat :=
  (pyLookup params k).getD 0

/-- `list(params.keys())`. -/
def dictKeys (params : List (Nat × Nat)) : List Nat := params.map (fun p => p.1)

/-- The `while i < len(data)` loop of `parse_tlv_params`: read a tag
byte, then a 2-byte big-endian value for tags in `TWO_BYTE_PARAMS`
(breaking if fewer than 2 bytes remain) or a 1-byte value otherwise
(breaking at end of input). -/
def parseTLVLoop : List Nat → List (Nat × Nat) → List (Nat × Nat)
  | [], params => params
  | tag :: rest, params =>
    if tag ∈ TWO_BYTE_PARAMS then
      match rest with
      | hi :: lo :: rest2 => parseTLVLoop rest2 (dictInsert params tag ((hi <<< 8) ||| lo))
      | _ => params
    else
      match rest with
      | v :: rest2 => parseTLVLoop rest2 (dictInsert params tag v)
      | [] => params

/-- `parse_tlv_params`: decode a TLV byte stream into a tag → value map. -/
def parse_tlv_params (data : List Nat) : List (Nat × Nat) :=
  parseTLVLoop data []

/-- The bytes emitted for one tag by the `for tag in ordered` loop of
`encode_tlv_params`. -/
def tlvEntry (tag val : Nat) : List Nat :=
  if tag ∈ TWO_BYTE_PARAMS then [tag, (val >>> 8) &&& 0xFF, val &&& 0xFF]
  else [tag, val &&& 0xFF]

/-- The `ordered` list of `encode_tlv_params`: canonical-order tags
present in the map, then the remaining tags sorted ascending
(`sorted(...)`; insertion sort is used here, which agrees with any
stable ascending sort). -/
def orderedTags (params : List (Nat × Nat)) : List Nat :=
  PARAM_ORDER.filter (fun t => t ∈ dictKeys params)
    ++ List.insertionSort (fun a b => a ≤ b)
        ((dictKeys params).filter (fun t => t ∉ PARAM_ORDER))

/-- `encode_tlv_params`: emit the entry bytes of every tag in `ordered`. -/
def encode_tlv_params (params : List (Nat × Nat)) : List Nat :=
  (orderedTags params).flatMap (fun tag => tlvEntry tag (lookupD params tag))

/-- `named_params` helper: `PARAM_NAMES.get(tag, f"0x{tag:02x}")`. -/
def paramName (tag : Nat) : String :=
  match PARAM_NAMES.find? (fun p => p.1 = tag) with
  | some p => p.2
  | none =>
    let ds := Nat.toDigits 16 tag
    "0x" ++ String.mk (if ds.length < 2 then '0' :: ds else ds)

/-- `named_params`: translate integer tag keys to human-readable names. -/
def named_params (params : List (Nat × Nat)) : List (String × Nat) :=
  params.map (fun p => (paramName p.1, p.2))

/-! ## Command frame builder — `cremalink/parsing/commands/builder.py` -/

def COMMAND_MARKER : Nat := 0x0D

def BREW_OPCODE_HI : Nat := 0x83

def BREW_OPCODE_LO : Nat := 0xF0

def TRIGGER_START : Nat := 0x01

def TRIGGER_STOP : Nat := 0x02

/-- One lowercase hex digit. -/
def hexDigitChar (n : Nat) : Char :=
  ("0123456789abcdef".toList).getD n '0'

/-- Python `bytes.hex()`: two lowercase hex digits per byte. -/
def bytesHex (l : List Nat) : List Char :=
  l.flatMap (fun b => [hexDigitChar (b / 16), hexDigitChar (b % 16)])

/-- `build_brew_command`: marker, self-inclusive length byte, opcode
`0x83 0xF0`, beverage id, trigger, TLV params, CRC-16; returned as a
hex string. -/
def build_brew_command (bev_id : Nat) (params : List (Nat × Nat))
    (trigger : Nat) : List Char :=
  let tlv_bytes := encode_tlv_params params
  let payload := [BREW_OPCODE_HI, BREW_OPCODE_LO, bev_id, trigger] ++ tlv_bytes
  let frame_len := 1 + 1 + payload.length + 2
  let frame_without_crc := [COMMAND_MARKER, frame_len] ++ payload
  bytesHex (frame_without_crc ++ crc16_ccitt frame_without_crc)

/-- `build_stop_command`: brew command with trigger `0x02` and fixed
parameters `{0x0F: 250, 0x1B: 1}`. -/
def build_stop_command (bev_id : Nat) : List Char :=
  build_brew_command bev_id [(0x0F, 250), (0x1B, 1)] TRIGGER_STOP

/-! ## Recipe decoder — `cremalink/parsing/recipes/decode.py` -/

/-- A decoded recipe from a cloud property value (`RecipeSnapshot`). -/
structure RecipeSnapshot where
  format : String
  bev_id : Nat
  profile : Option Nat
  params : List (Nat × Nat)
  named_params : List (String × Nat)
  crc_ok : Bool
  raw_hex : List Char
deriving Repr, DecidableEq

/-- `decode_recipe_b64` after the initial `base64.b64decode` (a stdlib
call; the input here is the decoded byte buffer).  Mirrors the length
and marker guards, the `frame_end`/CRC bookkeeping and the three
command-word branches. -/
def decode_recipe (raw : List Nat) : Option RecipeSnapshot :=
  if raw.length < 6 then none
  else if pyGet raw 0 ≠ 0xD0 then none
  else
    let length := pyGet raw 1
    let frame_end := min (length + 1) raw.length
    let crc_bytes := pySlice raw (frame_end - 2) frame_end
    let crc_check := crc16_ccitt (raw.take (frame_end - 2))
    let cmd := (pyGet raw 2) <<< 8 ||| pyGet raw 3
    if cmd = 0xA6F0 then
      let params := parse_tlv_params (pySlice raw 6 (frame_end - 2))
      some { format := "profile", bev_id := pyGet raw 5,
             profile := some (pyGet raw 4), params := params,
             named_params := named_params params,
             crc_ok := crc_check == crc_bytes, raw_hex := bytesHex raw }
    else if cmd = 0xB0F0 then
      some { format := "default", bev_id := pyGet raw 4, profile := none,
             params := [], named_params := [],
             crc_ok := crc_check == crc_bytes, raw_hex := bytesHex raw }
    else
      some { format := "unknown", bev_id := 0, profile := none, params := [],
             named_params := [], crc_ok := false, raw_hex := bytesHex raw }

/-! ## Monitor frame — `cremalink/parsing/monitor/frame.py` -/

/-- `MonitorFrame` (the base64 source string is not carried; the input
here is the decoded byte buffer). -/
structure MonitorFrame where
  direction : Nat
  request_id : Nat
  answer_required : Nat
  accessory : Nat
  switches : List Nat
  alarms : List Nat
  status : Nat
  action : Nat
  progress : Nat
  timestamp : List Nat
  extra : List Nat
  raw : List Nat
deriving Repr, DecidableEq

/-- `MonitorFrame.from_b64` after the initial `base64.b64decode`:
each `raise ValueError` becomes `Except.error`. -/
def monitorFrameFromBytes (raw : List Nat) : Except String MonitorFrame :=
  if raw.length < 4 then
    .error "Raw data is too short to contain a monitor frame"
  else
    let direction := pyGet raw 0
    let length := pyGet raw 1
    if length < 4 ∨ raw.length < length + 1 then
      .error "Length byte inconsistent with payload"
    else
      let data := pySlice raw 2 (length - 1)
      let crc := pySlice raw (length - 1) (length + 1)
      if crc ≠ crc16_ccitt (raw.take (length - 1)) then
        .error "CRC check failed"
      else
        let timestamp := pySlice raw (length + 1) (length + 5)
        let extra := raw.drop (length + 5)
        if data.length < 2 then
          .error "Monitor payload too short"
        else
          let request_id := pyGet data 0
          let answer_required := pyGet data 1
          let contents := data.drop 2
          if contents.length ≠ 13 then
            .error "Monitor contents expected to be 13 bytes for V2 frames"
          else
            .ok { direction := direction, request_id := request_id,
                  answer_required := answer_required,
                  accessory := pyGet contents 0,
                  switches := pySlice contents 1 3,
                  alarms := pySlice contents 3 5 ++ pySlice contents 8 10,
                  status := pyGet contents 5, action := pyGet contents 6,
                  progress := pyGet contents 7, timestamp := timestamp,
                  extra := extra, raw := raw }

/-- `true` exactly when no parse error was raised. -/
def exceptIsOk {ε α : Type} : Except ε α → Bool
  | .ok _ => true
  | .error _ => false

/-! ## AES-CBC message wrapping — `cremalink/crypto/__init__.py`

The AES block cipher itself is pycryptodome library code, not part of
this repository: it is modelled as a pair of functions `E`/`D` on
16-byte blocks, assumed mutually inverse where a theorem needs it.
`base64` is modelled concretely. -/

/-- `pad_zero`: append `block_size - len(data) % block_size` zero bytes
(a full zero block when the length is already a multiple). -/
def pad_zero (data : List Nat) (block_size : Nat) : List Nat :=
  data ++ List.replicate (block_size - data.length % block_size) 0

/-- Python `bytes.find(target)`: index of the first occurrence, `None`
standing for Python's `-1`. -/
def pyFind (data : List Nat) (target : Nat) : Option Nat :=
  match data with
  | [] => none
  | x :: xs => if x = target then some 0 else (pyFind xs target).map (· + 1)

/-- `unpad_zero`: `data[: data.find(b"\x00")]` — truncate at the first
zero byte; when there is none, Python `find` returns `-1` and the slice
`data[:-1]` drops the final byte. -/
def unpad_zero (data : List Nat) : List Nat :=
  match pyFind data 0 with
  | some i => data.take i
  | none => data.take (data.length - 1)

/-- Byte-wise XOR of two equal-length blocks (the CBC chaining step). -/
def xorBytes (a b : List Nat) : List Nat :=
  List.zipWith (fun x y => x ^^^ y) a b

/-- Split a byte string into 16-byte blocks; the fuel argument (any
bound on the list length) makes the recursion structural. -/
def chunks16Fuel : Nat → List Nat → List (List Nat)
  | 0, _ => []
  | _, [] => []
  | fuel + 1, x :: xs => ((x :: xs).take 16) :: chunks16Fuel fuel ((x :: xs).drop 16)

/-- Split a byte string into 16-byte blocks (the AES-CBC block walk). -/
def chunks16 (l : List Nat) : List (List Nat) :=
  chunks16Fuel l.length l

/-- CBC encryption over an abstract block cipher `E`:
`c_i = E(p_i XOR c_(i-1))`, seeded with the IV. -/
def cbcEncBlocks (E : List Nat → List Nat) : List Nat → List (List Nat) → List (List Nat)
  | _, [] => []
  | iv, b :: bs => E (xorBytes iv b) :: cbcEncBlocks E (E (xorBytes iv b)) bs

/-- CBC decryption over an abstract block cipher `D`:
`p_i = D(c_i) XOR c_(i-1)`, seeded with the IV. -/
def cbcDecBlocks (D : List Nat → List Nat) : List Nat → List (List Nat) → List (List Nat)
  | _, [] => []
  | iv, c :: cs => xorBytes iv (D c) :: cbcDecBlocks D c cs

/-- The base64 alphabet. -/
def b64Chars : List Char :=
  "ABCDEFGHIJKLMNOPQRSTUVWXYZabcdefghijklmnopqrstuvwxyz0123456789+/".toList

/-- Sextet to base64 character. -/
def b64Char (n : Nat) : Char := b64Chars.getD n 'A'

/-- Base64 character to sextet. -/
def b64Index (c : Char) : Option Nat := b64Chars.findIdx? (fun d => d = c)

/-- `base64.b64encode` (stdlib model): 3 bytes to 4 characters, with
`=` padding for a 1- or 2-byte tail. -/
def b64encode : List Nat → List Char
  | [] => []
  | [a] => [b64Char (a / 4), b64Char (a % 4 * 16), '=', '=']
  | [a, b] => [b64Char (a / 4), b64Char (a % 4 * 16 + b / 16), b64Char (b % 16 * 4), '=']
  | a :: b :: c :: rest =>
    b64Char (a / 4) :: b64Char (a % 4 * 16 + b / 16)
      :: b64Char (b % 16 * 4 + c / 64) :: b64Char (c % 64) :: b64encode rest

/-- `base64.b64decode` (stdlib model): 4 characters to 3 bytes,
handling the two `=`-padded tails; `none` on malformed input. -/
def b64decode : List Char → Option (List Nat)
  | [] => some []
  | c1 :: c2 :: c3 :: c4 :: rest =>
    match b64Index c1, b64Index c2 with
    | some s1, some s2 =>
      if c3 = '=' ∧ c4 = '=' ∧ rest = [] then
        some [s1 * 4 + s2 / 16]
      else
        match b64Index c3 with
        | some s3 =>
          if c4 = '=' ∧ rest = [] then
            some [s1 * 4 + s2 / 16, s2 % 16 * 16 + s3 / 4]
          else
            match b64Index c4, b64decode rest with
            | some s4, some tail =>
              some ((s1 * 4 + s2 / 16) :: (s2 % 16 * 16 + s3 / 4)
                :: (s3 % 4 * 64 + s4) :: tail)
            | _, _ => none
        | none => none
    | _, _ => none
  | _ => none

/-- `aes_encrypt` with the AES-CBC cipher under a fixed key abstracted
as `E`: zero-pad, CBC-encrypt, base64-encode.  The plaintext argument
is the UTF-8 byte encoding of the Python `message` string. -/
def aes_encrypt (E : List Nat → List Nat) (iv message : List Nat) : List Char :=
  b64encode ((cbcEncBlocks E iv (chunks16 (pad_zero message 16))).flatten)

/-- `aes_decrypt` with the AES-CBC decryption under a fixed key
abstracted as `D`: base64-decode (`none` on malformed base64),
CBC-decrypt, truncate at the first zero byte. -/
def aes_decrypt (D : List Nat → List Nat) (iv : List Nat) (enc : List Char) :
    Option (List Nat) :=
  (b64decode enc).map
    (fun decoded => unpad_zero ((cbcDecBlocks D iv (chunks16 decoded)).flatten))

/-! ## LAN key derivation — `cremalink/local_server_app/protocol.py`

`hmac_for_key_and_data` delegates to the stdlib `hmac`/`hashlib`
HMAC-SHA256, which is not repository code; it is taken as a parameter
`H : key → data → digest` below.  String inputs are modelled by their
UTF-8 byte encodings. -/

/-- Value of a lowercase hex digit (position in the digit alphabet). -/
def hexCharVal (c : Char) : Nat :=
  ("0123456789abcdef".toList).findIdx (fun d => d = c)

/-- Python `bytearray.fromhex` on an even-length lowercase hex string. -/
def bytesFromHex : List Char → List Nat
  | c1 :: c2 :: rest => (hexCharVal c1 * 16 + hexCharVal c2) :: bytesFromHex rest
  | _ => []

/-- `extract_bits`: hex-encode, slice the hex string at character
positions `[start:finish]`, and parse the hex back to bytes. -/
def extract_bits (raw : List Nat) (start finish : Nat) : List Nat :=
  bytesFromHex (((bytesHex raw).drop start).take (finish - start))

/-- `derive_keys` with HMAC-SHA256 abstracted as `H`: five secrets from
nested HMAC calls over the concatenated nonces plus a discriminator
byte, with both IV seeds passed through `extract_bits(…, 0, 16*2)`. -/
def derive_keys (H : List Nat → List Nat → List Nat)
    (lan_key random_1 random_2 time_1 time_2 : List Nat) :
    List Nat × List Nat × List Nat × List Nat × List Nat :=
  let concat30 := random_1 ++ random_2 ++ time_1 ++ time_2 ++ [0x30]
  let app_sign_key := H lan_key (H lan_key concat30 ++ concat30)
  let concat31 := random_1 ++ random_2 ++ time_1 ++ time_2 ++ [0x31]
  let app_crypto_key := H lan_key (H lan_key concat31 ++ concat31)
  let concat32 := random_1 ++ random_2 ++ time_1 ++ time_2 ++ [0x32]
  let app_iv_seed :=
    extract_bits (H lan_key (H lan_key concat32 ++ concat32)) 0 (16 * 2)
  let dconcat31 := random_2 ++ random_1 ++ time_2 ++ time_1 ++ [0x31]
  let dev_crypto_key := H lan_key (H lan_key dconcat31 ++ dconcat31)
  let dconcat32 := random_2 ++ random_1 ++ time_2 ++ time_1 ++ [0x32]
  let dev_iv_seed :=
    extract_bits (H lan_key (H lan_key dconcat32 ++ dconcat32)) 0 (16 * 2)
  (app_sign_key, app_crypto_key, app_iv_seed, dev_crypto_key, dev_iv_seed)

/-- Modelled from the spec: one derived secret,
`HMAC-SHA256(lan_key, HMAC-SHA256(lan_key, M) || M)`. -/
def specSecret (H : List Nat → List Nat → List Nat) (lan_key M : List Nat) :
    List Nat :=
  H lan_key (H lan_key M ++ M)

/-- Modelled from the spec: the five secrets — `M` is app-random ||
device-random || app-time || device-time for the three app-direction
secrets and device-random || app-random || device-time || app-time for
the two device-direction secrets, followed by discriminator `0x30`
(signing), `0x31` (encryption) or `0x32` (IV seed, truncated to the
first 16 bytes); no device-direction signing key. -/
def specDeriveKeys (H : List Nat → List Nat → List Nat)
    (lan_key r_app r_dev t_app t_dev : List Nat) :
    List Nat × List Nat × List Nat × List Nat × List Nat :=
  let M_app := r_app ++ r_dev ++ t_app ++ t_dev
  let M_dev := r_dev ++ r_app ++ t_dev ++ t_app
  (specSecret H lan_key (M_app ++ [0x30]),
   specSecret H lan_key (M_app ++ [0x31]),
   (specSecret H lan_key (M_app ++ [0x32])).take 16,
   specSecret H lan_key (M_dev ++ [0x31]),
   (specSecret H lan_key (M_dev ++ [0x32])).take 16)

/-! ## Monitor semantic view — `cremalink/parsing/monitor/view.py` and
`profile.py` -/

/-- `FlagDefinition` (the unused `description` field is omitted);
`byte`/`bit` are Python ints, restricted to `Nat` here — `validate`
rejects negative values. -/
structure FlagDefinition where
  source : String
  byte : Nat
  bit : Nat
  invert : Bool
deriving Repr, DecidableEq

/-- `FlagDefinition.validate` succeeds: source is `alarms`/`switches`
and the bit index is within 0–7 (`byte ≥ 0` is automatic for `Nat`). -/
def FlagDefinition.validateOk (f : FlagDefinition) : Bool :=
  (f.source == "alarms" || f.source == "switches") && f.bit ≤ 7

/-- A Python value as used in predicate comparisons: `None`, an int, or
a bytes object.  Equality is Python `==` (cross-type comparisons are
false). -/
inductive PyVal where
  | pynone : PyVal
  | pyint : Nat → PyVal
  | pybytes : List Nat → PyVal
deriving Repr, DecidableEq, BEq

/-- `PredicateDefinition`. -/
structure PredicateDefinition where
  kind : String
  source : Option String
  value : PyVal
  values : Option (List PyVal)
  flag : Option String
  byte : Option Nat
  bit : Option Nat
deriving Repr, DecidableEq

def PredicateDefinition.uses_flag (d : PredicateDefinition) : Bool :=
  d.kind == "flag_true" || d.kind == "flag_false"

def PredicateDefinition.uses_bit_address (d : PredicateDefinition) : Bool :=
  d.kind == "bit_set" || d.kind == "bit_clear"

/-- `get_bit` from `core/binary.py`: raises `ValueError` when the bit
index is outside 0–7 (negative indices cannot arise for `Nat`). -/
def get_bit (byte_value bit_index : Nat) : Except String Bool :=
  if bit_index > 7 then .error "bit_index must be between 0 and 7"
  else .ok (byte_value.testBit bit_index)

/-- Python `dict.get` over a string-keyed mapping. -/
def lookupStr {α : Type} (l : List (String × α)) (k : String) : Option α :=
  (l.find? (fun p => p.1 == k)).map (fun p => p.2)

/-- Python falsiness of `Optional[str]` (`None` or the empty string). -/
def strFalsy : Option String → Bool
  | none => true
  | some s => s == ""

/-- `MonitorView._resolve_flag`: `None` when the frame is missing, the
flag is unknown, or the byte offset is out of range; the `get_bit` call
may raise, which propagates. -/
def resolveFlag (frame : Option MonitorFrame)
    (flags : List (String × FlagDefinition)) (flag_name : String) :
    Except String (Option Bool) :=
  match frame with
  | none => .ok none
  | some f =>
    match lookupStr flags flag_name with
    | none => .ok none
    | some flag_def =>
      let data_bytes := if flag_def.source == "alarms" then f.alarms else f.switches
      if flag_def.byte ≥ data_bytes.length then .ok none
      else
        match get_bit (pyGet data_bytes flag_def.byte) flag_def.bit with
        | .error e => .error e
        | .ok value => .ok (some (if flag_def.invert then !value else value))

/-- `MonitorView._source_value`: `None` without a frame, else the named
frame field (unknown sources give the dict-`get` default `None`). -/
def sourceValue (frame : Option MonitorFrame) (source : String) : PyVal :=
  match frame with
  | none => .pynone
  | some f =>
    if source == "alarms" then .pybytes f.alarms
    else if source == "switches" then .pybytes f.switches
    else if source == "status" then .pyint f.status
    else if source == "action" then .pyint f.action
    else if source == "progress" then .pyint f.progress
    else if source == "accessory" then .pyint f.accessory
    else .pynone

/-- The body of `MonitorView._evaluate_predicate` (inside the `try`). -/
def evaluatePredicateCore (frame : Option MonitorFrame)
    (flags : List (String × FlagDefinition)) (d : PredicateDefinition) :
    Except String (Option Bool) :=
  if d.uses_flag then
    match resolveFlag frame flags (d.flag.getD "") with
    | .error e => .error e
    | .ok none => .ok none
    | .ok (some fv) => .ok (some (if d.kind == "flag_true" then fv else !fv))
  else if d.uses_bit_address then
    match frame with
    | none => .ok none
    | some f =>
      if strFalsy d.source then .ok none
      else
        let source_bytes :=
          if d.source.getD "" == "alarms" then f.alarms else f.switches
        match d.byte, d.bit with
        | none, _ => .ok none
        | some _, none => .ok none
        | some byte, some bit =>
          if byte ≥ source_bytes.length then .ok none
          else
            match get_bit (pyGet source_bytes byte) bit with
            | .error e => .error e
            | .ok bv => .ok (some (if d.kind == "bit_set" then bv else !bv))
  else
    let source_val :=
      match d.source with
      | none => PyVal.pynone
      | some s => if s == "" then PyVal.pynone else sourceValue frame s
    if d.kind == "equals" then .ok (some (source_val == d.value))
    else if d.kind == "not_equals" then .ok (some (source_val != d.value))
    else if d.kind == "in_set" then
      .ok (some ((d.values.getD []).contains source_val))
    else if d.kind == "not_in_set" then
      .ok (some (!(d.values.getD []).contains source_val))
    else .ok none

/-- `MonitorView._evaluate_predicate`: the body wrapped in
`try/except Exception: return None`. -/
def evaluatePredicate (frame : Option MonitorFrame)
    (flags : List (String × FlagDefinition)) (d : PredicateDefinition) :
    Option Bool :=
  match evaluatePredicateCore frame flags d with
  | .error _ => none
  | .ok v => v

/-- `MonitorView.__getattr__`: flag names resolve through
`_resolve_flag` (whose errors propagate), predicate names through
`_evaluate_predicate`, anything else raises `AttributeError`. -/
def viewGetAttr (frame : Option MonitorFrame)
    (flags : List (String × FlagDefinition))
    (preds : List (String × PredicateDefinition)) (item : String) :
    Except String (Option Bool) :=
  if (lookupStr flags item).isSome then resolveFlag frame flags item
  else
    match lookupStr preds item with
    | some d => .ok (evaluatePredicate frame flags d)
    | none => .error "AttributeError"

/-! ## Theorems -/

lemma xor_lt_65536 {a b : Nat} (ha : a < 65536) (hb : b < 65536) :
    a ^^^ b < 65536 := by
  have h16 : (65536 : Nat) = 2 ^ 16 := by norm_num
  rw [h16] at ha hb ⊢
  exact Nat.xor_lt_two_pow ha hb

lemma shiftLeft8_lt {b : Nat} (hb : b < 256) : b <<< 8 < 65536 := by
  have h8 : (2 : Nat) ^ 8 = 256 := by norm_num
  rw [Nat.shiftLeft_eq, h8]
  omega

lemma xor_mod_two_pow_16 (x p : Nat) (hp : p < 65536) :
    (x ^^^ p) % 65536 = x % 65536 ^^^ p := by
  have h1 : (x ^^^ p) % 65536 = (x ^^^ p) &&& (2 ^ 16 - 1) :=
    (Nat.and_pow_two_sub_one_eq_mod _ 16).symm
  have h2 : x % 65536 = x &&& (2 ^ 16 - 1) :=
    (Nat.and_pow_two_sub_one_eq_mod _ 16).symm
  have hpm : p &&& (2 ^ 16 - 1) = p := by
    rw [Nat.and_pow_two_sub_one_eq_mod]
    omega
  rw [h1, h2, Nat.and_xor_distrib_right, hpm]

lemma testBit15_mod (c : Nat) : (c % 65536).testBit 15 = c.testBit 15 := by
  have h16 : (65536 : Nat) = 2 ^ 16 := by norm_num
  rw [h16, Nat.testBit_mod_two_pow]
  simp

lemma and_8000_ne (c : Nat) : (c &&& 0x8000 ≠ 0) ↔ c.testBit 15 = true := by
  rw [show (0x8000 : Nat) = 2 ^ 15 by norm_num, Nat.and_two_pow]
  cases hc : c.testBit 15 <;> simp

lemma crcShift_mod (c : Nat) :
    crcShift c % 65536 = crcRegStep (c % 65536) := by
  unfold crcShift crcRegStep
  rw [testBit15_mod]
  by_cases hb : c.testBit 15 = true
  · rw [if_pos ((and_8000_ne c).mpr hb), if_pos hb,
      xor_mod_two_pow_16 _ _ (by norm_num [CRC16_POLY]), Nat.shiftLeft_eq,
      pow_one]
    congr 1
    omega
  · rw [if_neg (fun h => hb ((and_8000_ne c).mp h)), if_neg hb,
      Nat.shiftLeft_eq, pow_one]
    omega

lemma crcRegStep_lt (c : Nat) : crcRegStep c < 65536 := by
  unfold crcRegStep
  have hsh : (c * 2) % 65536 < 65536 := Nat.mod_lt _ (by norm_num)
  split
  · exact xor_lt_65536 hsh (by norm_num [CRC16_POLY])
  · exact hsh

lemma crcRounds_mod (n : Nat) (c : Nat) :
    crcRounds n c % 65536 = crcRegRounds n (c % 65536) := by
  induction n generalizing c with
  | zero => rfl
  | succ n ih =>
    simp only [crcRounds, crcRegRounds]
    rw [ih, crcShift_mod]

lemma crcRegRounds_lt (n : Nat) (c : Nat) (h : c < 65536) :
    crcRegRounds n c < 65536 := by
  induction n generalizing c with
  | zero => exact h
  | succ n ih => exact ih _ (crcRegStep_lt _)

lemma crcFold_congr (l : List Nat) (a a' : Nat) (h : a % 65536 = a' % 65536)
    (hl : ∀ x ∈ l, x < 256) :
    (l.foldl (fun crc byte => crcRounds 8 (crc ^^^ (byte <<< 8))) a) % 65536
      = (l.foldl (fun crc byte => crcRounds 8 (crc ^^^ (byte <<< 8))) a') % 65536 := by
  induction l generalizing a a' with
  | nil => simpa using h
  | cons y ys ihy =>
    simp only [List.foldl_cons]
    have hy : y <<< 8 < 65536 := shiftLeft8_lt (hl y (by simp))
    apply ihy
    · rw [crcRounds_mod, crcRounds_mod, xor_mod_two_pow_16 _ _ hy,
        xor_mod_two_pow_16 _ _ hy, h]
    · exact fun x hx => hl x (by simp [hx])

lemma crcFold_mod (data : List Nat) (c : Nat) (hc : c < 65536)
    (hb : ∀ b ∈ data, b < 256) :
    (data.foldl (fun crc byte => crcRounds 8 (crc ^^^ (byte <<< 8))) c) % 65536
      = data.foldl (fun c b => crcRegRounds 8 (c ^^^ (b <<< 8))) c ∧
    data.foldl (fun c b => crcRegRounds 8 (c ^^^ (b <<< 8))) c < 65536 := by
  induction data generalizing c with
  | nil => exact ⟨Nat.mod_eq_of_lt hc, hc⟩
  | cons b bs ih =>
    simp only [List.foldl_cons]
    have hxlt : c ^^^ (b <<< 8) < 65536 :=
      xor_lt_65536 hc (shiftLeft8_lt (hb b (by simp)))
    have hlt : crcRegRounds 8 (c ^^^ (b <<< 8)) < 65536 :=
      crcRegRounds_lt _ _ hxlt
    have ihres := ih (crcRegRounds 8 (c ^^^ (b <<< 8))) hlt
      (fun x hx => hb x (by simp [hx]))
    have h0 : crcRounds 8 (c ^^^ (b <<< 8)) % 65536
        = crcRegRounds 8 (c ^^^ (b <<< 8)) % 65536 := by
      rw [crcRounds_mod, Nat.mod_eq_of_lt hxlt, Nat.mod_eq_of_lt hlt]
    refine ⟨?_, ihres.2⟩
    rw [← ihres.1]
    exact crcFold_congr bs _ _ h0 (fun x hx => hb x (by simp [hx]))

lemma and_FF_eq {v : Nat} (h : v < 256) : v &&& 0xFF = v := by
  rw [show (0xFF : Nat) = 2 ^ 8 - 1 by norm_num, Nat.and_pow_two_sub_one_eq_mod]
  omega

lemma two_byte_reconstruct (v : Nat) (h : v < 65536) :
    (((v >>> 8) &&& 0xFF) <<< 8) ||| (v &&& 0xFF) = v := by
  have hA : (0xFF : Nat) = 2 ^ 8 - 1 := by norm_num
  have h28 : (2 : Nat) ^ 8 = 256 := by norm_num
  rw [hA, Nat.and_pow_two_sub_one_eq_mod, Nat.and_pow_two_sub_one_eq_mod,
    Nat.shiftRight_eq_div_pow, Nat.shiftLeft_eq, h28, mul_comm]
  rw [show (256 : Nat) = 2 ^ 8 by norm_num, ← Nat.mul_add_lt_is_or (by omega)]
  rw [h28]
  omega

lemma parseTLVLoop_entry (tag v : Nat) (rest : List Nat) (acc : List (Nat × Nat))
    (hfit : if tag ∈ TWO_BYTE_PARAMS then v < 65536 else v < 256) :
    parseTLVLoop (tlvEntry tag v ++ rest) acc
      = parseTLVLoop rest (dictInsert acc tag v) := by
  unfold tlvEntry
  by_cases ht : tag ∈ TWO_BYTE_PARAMS
  · rw [if_pos ht] at hfit
    rw [if_pos ht]
    show parseTLVLoop (tag :: ((v >>> 8) &&& 0xFF) :: (v &&& 0xFF) :: rest) acc = _
    simp only [parseTLVLoop, if_pos ht]
    rw [two_byte_reconstruct v hfit]
  · rw [if_neg ht] at hfit
    rw [if_neg ht]
    cases rest with
    | nil =>
      show parseTLVLoop (tag :: (v &&& 0xFF) :: []) acc = _
      simp only [parseTLVLoop, if_neg ht]
      rw [and_FF_eq hfit]
    | cons r rs =>
      show parseTLVLoop (tag :: (v &&& 0xFF) :: r :: rs) acc = _
      simp only [parseTLVLoop, if_neg ht]
      rw [and_FF_eq hfit]

lemma parseTLVLoop_entries (ts : List Nat) (f : Nat → Nat) (acc : List (Nat × Nat))
    (hfit : ∀ t ∈ ts, if t ∈ TWO_BYTE_PARAMS then f t < 65536 else f t < 256) :
    parseTLVLoop (ts.flatMap (fun t => tlvEntry t (f t))) acc
      = ts.foldl (fun acc t => dictInsert acc t (f t)) acc := by
  induction ts generalizing acc with
  | nil => rfl
  | cons t ts ih =>
    rw [List.flatMap_cons, parseTLVLoop_entry t (f t) _ acc (hfit t (by simp)),
      List.foldl_cons]
    exact ih _ (fun u hu => hfit u (by simp [hu]))

lemma foldl_dictInsert_fresh (ts : List Nat) (f : Nat → Nat) (acc : List (Nat × Nat))
    (hnd : ts.Nodup) (hdisj : ∀ t ∈ ts, t ∉ dictKeys acc) :
    ts.foldl (fun acc t => dictInsert acc t (f t)) acc
      = acc ++ ts.map (fun t => (t, f t)) := by
  induction ts generalizing acc with
  | nil => simp
  | cons t ts ih =>
    simp only [List.foldl_cons, List.map_cons]
    have hnotin : ¬ acc.any (fun p => p.1 = t) = true := by
      intro h
      rcases List.any_eq_true.mp h with ⟨p, hp, he⟩
      exact hdisj t (by simp) (List.mem_map.mpr ⟨p, hp, by simpa using he⟩)
    rw [dictInsert, if_neg hnotin]
    have hnd' := (List.nodup_cons.mp hnd).2
    have hhead := (List.nodup_cons.mp hnd).1
    rw [ih _ hnd' ?_]
    · simp
    · intro u hu
      intro hc
      unfold dictKeys at hc
      rcases List.mem_map.mp hc with ⟨p, hp, hpe⟩
      rcases List.mem_append.mp hp with hp | hp
      · exact hdisj u (by simp [hu]) (List.mem_map.mpr ⟨p, hp, hpe⟩)
      · simp at hp
        subst hp
        simp at hpe
        subst hpe
        exact hhead hu

lemma orderedTags_nodup (m : List (Nat × Nat)) (h : (dictKeys m).Nodup) :
    (orderedTags m).Nodup := by
  unfold orderedTags
  refine List.Nodup.append ?_ ?_ ?_
  · exact List.Nodup.filter _ (by decide)
  · exact (List.perm_insertionSort _ _).symm.nodup (List.Nodup.filter _ h)
  · intro a ha hb
    have ha1 := (List.mem_filter.mp ha).1
    have hb' := (List.perm_insertionSort _ _).mem_iff.mp hb
    have hb2 := (List.mem_filter.mp hb').2
    simp at hb2
    exact hb2 ha1

lemma mem_orderedTags (m : List (Nat × Nat)) (t : Nat) :
    t ∈ orderedTags m ↔ t ∈ dictKeys m := by
  unfold orderedTags
  rw [List.mem_append, (List.perm_insertionSort _ _).mem_iff, List.mem_filter,
    List.mem_filter]
  by_cases hp : t ∈ PARAM_ORDER <;> simp [hp]

lemma pyLookup_eq_none {m : List (Nat × Nat)} {k : Nat} (h : k ∉ dictKeys m) :
    pyLookup m k = none := by
  unfold pyLookup
  rw [List.find?_eq_none.mpr]
  · rfl
  · intro p hp hc
    simp only [decide_eq_true_eq] at hc
    exact h (List.mem_map.mpr ⟨p, hp, hc⟩)

lemma mem_keys_lookup {m : List (Nat × Nat)} {k : Nat} (h : k ∈ dictKeys m) :
    ∃ v, pyLookup m k = some v := by
  unfold dictKeys at h
  rcases List.mem_map.mp h with ⟨p, hp, hpk⟩
  have : (m.find? (fun q => q.1 = k)).isSome := by
    rw [List.find?_isSome]
    exact ⟨p, hp, by simpa using hpk⟩
  rcases Option.isSome_iff_exists.mp this with ⟨q, hq⟩
  exact ⟨q.2, by simp [pyLookup, hq]⟩

lemma pyLookup_mem {m : List (Nat × Nat)} {k v : Nat}
    (h : pyLookup m k = some v) : (k, v) ∈ m := by
  unfold pyLookup at h
  cases hf : m.find? (fun p => p.1 = k) with
  | none => simp [hf] at h
  | some p =>
    rw [hf] at h
    have hm := List.mem_of_find?_eq_some hf
    have hp := List.find?_some hf
    rcases p with ⟨a, b⟩
    simp at h hp
    subst h
    subst hp
    exact hm

lemma find?_eq_self {l : List Nat} {k : Nat} (h : k ∈ l) :
    l.find? (fun t => t = k) = some k := by
  induction l with
  | nil => simp at h
  | cons a l ih =>
    by_cases ha : a = k
    · subst ha
      exact List.find?_cons_of_pos _ (by simp)
    · rw [List.find?_cons_of_neg _ (by simpa using ha)]
      refine ih ?_
      rcases List.mem_cons.mp h with h | h
      · exact absurd h.symm ha
      · exact h

lemma pyLookup_map_orderedTags (m : List (Nat × Nat)) (k : Nat) :
    pyLookup ((orderedTags m).map (fun t => (t, lookupD m t))) k
      = pyLookup m k := by
  by_cases hk : k ∈ dictKeys m
  · have hmem : k ∈ orderedTags m := (mem_orderedTags m k).mpr hk
    rcases mem_keys_lookup hk with ⟨v, hv⟩
    have hL : pyLookup ((orderedTags m).map (fun t => (t, lookupD m t))) k
        = some (lookupD m k) := by
      unfold pyLookup
      rw [List.find?_map]
      have heq : ((fun (p : Nat × Nat) => decide (p.1 = k)) ∘ fun t => (t, lookupD m t))
          = fun t => decide (t = k) := rfl
      rw [heq, find?_eq_self hmem]
      rfl
    rw [hL, hv]
    unfold lookupD
    rw [hv]
    rfl
  · rw [pyLookup_eq_none hk]
    apply pyLookup_eq_none
    intro hc
    unfold dictKeys at hc
    rcases List.mem_map.mp hc with ⟨p, hp, hpk⟩
    rcases List.mem_map.mp hp with ⟨t, ht, hpt⟩
    subst hpt
    simp at hpk
    rw [hpk] at ht
    exact hk ((mem_orderedTags m k).mp ht)

/-- **C1.** For every tag-to-value mapping `m` whose keys are distinct
byte tags and whose values fit their tag's byte width (`< 65536` for the
two-byte tags `{0x01, 0x09, 0x0F}`, `< 256` otherwise),
`parse_tlv_params (encode_tlv_params m)` equals `m` as a Python dict
(same value at every key). -/
theorem tlv_encode_decode_roundtrip (m : List (Nat × Nat))
    (hnd : (dictKeys m).Nodup)
    (hb : ∀ p ∈ m, p.1 < 256 ∧
      (if p.1 ∈ TWO_BYTE_PARAMS then p.2 < 65536 else p.2 < 256)) :
    ∀ k, pyLookup (parse_tlv_params (encode_tlv_params m)) k = pyLookup m k := by
  have hfit : ∀ t ∈ orderedTags m,
      if t ∈ TWO_BYTE_PARAMS then lookupD m t < 65536 else lookupD m t < 256 := by
    intro t ht
    have hkm := (mem_orderedTags m t).mp ht
    rcases mem_keys_lookup hkm with ⟨v, hv⟩
    have hmem := pyLookup_mem hv
    have hv2 := (hb _ hmem).2
    have hl : lookupD m t = v := by
      unfold lookupD
      rw [hv]
      rfl
    rw [hl]
    exact hv2
  intro k
  unfold parse_tlv_params encode_tlv_params
  rw [parseTLVLoop_entries _ _ _ hfit,
    foldl_dictInsert_fresh _ _ _ (orderedTags_nodup m hnd)
      (by intro t _ hc; simp [dictKeys] at hc),
    List.nil_append]
  exact pyLookup_map_orderedTags m k

/-- Witness for C1 at a concrete mapping (a two-byte tag, a canonical
one-byte tag and an unknown tag). -/
theorem tlv_encode_decode_roundtrip_witness :
    pyLookup (parse_tlv_params (encode_tlv_params [(1, 300), (27, 4), (42, 7)])) 27
      = pyLookup [(1, 300), (27, 4), (42, 7)] 27 :=
  tlv_encode_decode_roundtrip [(1, 300), (27, 4), (42, 7)]
    (by decide) (by decide) 27

/-- **C4.** For every byte sequence, `crc16_ccitt` returns exactly 2
bytes (it is a total function, so it never fails), and its result is
the big-endian encoding of the CCITT-style bit-at-a-time 16-bit
register computation with initial value `0x1D0F` and polynomial
`0x1021`, MSB-first. -/
theorem crc16_ccitt_matches_spec (data : List Nat) (hb : ∀ b ∈ data, b < 256) :
    (crc16_ccitt data).length = 2 ∧ crc16_ccitt data = crc16_regSpec data := by
  have h := crcFold_mod data 0x1D0F (by norm_num) hb
  refine ⟨rfl, ?_⟩
  unfold crc16_ccitt crc16_regSpec
  dsimp only
  rw [show (0xFFFF : Nat) = 2 ^ 16 - 1 from by norm_num,
    Nat.and_pow_two_sub_one_eq_mod,
    show (2 : Nat) ^ 16 = 65536 from by norm_num, h.1,
    Nat.shiftRight_eq_div_pow,
    show (0xFF : Nat) = 2 ^ 8 - 1 from by norm_num,
    Nat.and_pow_two_sub_one_eq_mod,
    show (2 : Nat) ^ 8 = 256 from by norm_num]

/-- Witness for C4 at a concrete byte sequence. -/
theorem crc16_ccitt_matches_spec_witness :
    (crc16_ccitt [13, 15, 131, 240]).length = 2 ∧
      crc16_ccitt [13, 15, 131, 240] = crc16_regSpec [13, 15, 131, 240] :=
  crc16_ccitt_matches_spec [13, 15, 131, 240] (by decide)

/-- **C5 counterexample.** The claimed hex `0d0d83f00101190124…` is not
what the code produces: the length byte is `0x0F` (15, self-inclusive),
not `0x0D`, and the two-byte tag `0x01` encodes as `01 00 24`, not
`19 01 24`. -/
theorem build_brew_command_claimed_hex_false :
    (build_brew_command 1 [(1, 36), (27, 4), (2, 5)] 1).take 26
      ≠ "0d0d83f001011901241b040205".toList := by decide

/-- **C5 (amended).** `build_brew_command(0x01, {0x01: 36, 0x1B: 4,
0x02: 5})` with trigger `0x01` produces the hex string
`0d0f83f001010100241b040205a6cd`: marker `0x0D`, length byte `0x0F`
(total frame length including itself, the marker and the CRC), opcode
`0x83 0xF0`, bev_id `0x01`, trigger `0x01`, TLV parameters in canonical
order `0x01` (two-byte `01 00 24`), `0x1B` (`1b 04`), `0x02` (`02 05`),
and a trailing 2-byte CRC equal to `crc16_ccitt` of all preceding
bytes. -/
theorem build_brew_command_example :
    build_brew_command 1 [(1, 36), (27, 4), (2, 5)] 1
      = bytesHex ([0x0D, 0x0F, 0x83, 0xF0, 0x01, 0x01, 0x01, 0x00, 0x24,
            0x1B, 0x04, 0x02, 0x05]
          ++ crc16_ccitt [0x0D, 0x0F, 0x83, 0xF0, 0x01, 0x01, 0x01, 0x00,
            0x24, 0x1B, 0x04, 0x02, 0x05]) ∧
    build_brew_command 1 [(1, 36), (27, 4), (2, 5)] 1
      = "0d0f83f001010100241b040205a6cd".toList := by decide

/-- **C6.** Monitor frame decoding raises a parse error (and returns no
partial frame) exactly when the buffer is shorter than 4 bytes, the
declared length byte is inconsistent with the buffer
(`length < 4 or len(raw) < length + 1`), the CRC at
`[length-1 : length+1]` differs from `crc16` of the bytes before it, or
the contents region after the 2-byte request_id/answer_required header
is not exactly 13 bytes; on every other input it returns a frame. -/
theorem monitor_frame_error_iff (raw : List Nat) :
    exceptIsOk (monitorFrameFromBytes raw) = true ↔
      ¬(raw.length < 4 ∨
        (pyGet raw 1 < 4 ∨ raw.length < pyGet raw 1 + 1) ∨
        pySlice raw (pyGet raw 1 - 1) (pyGet raw 1 + 1)
          ≠ crc16_ccitt (raw.take (pyGet raw 1 - 1)) ∨
        ((pySlice raw 2 (pyGet raw 1 - 1)).drop 2).length ≠ 13) := by
  unfold monitorFrameFromBytes
  by_cases h1 : raw.length < 4
  · rw [if_pos h1]
    simp only [exceptIsOk]
    tauto
  · rw [if_neg h1]
    dsimp only
    by_cases h2 : pyGet raw 1 < 4 ∨ raw.length < pyGet raw 1 + 1
    · rw [if_pos h2]
      simp only [exceptIsOk]
      tauto
    · rw [if_neg h2]
      by_cases h3 : pySlice raw (pyGet raw 1 - 1) (pyGet raw 1 + 1)
          ≠ crc16_ccitt (raw.take (pyGet raw 1 - 1))
      · rw [if_pos h3]
        simp only [exceptIsOk]
        tauto
      · rw [if_neg h3]
        by_cases h4 : (pySlice raw 2 (pyGet raw 1 - 1)).length < 2
        · rw [if_pos h4]
          simp only [exceptIsOk]
          have hlen : ((pySlice raw 2 (pyGet raw 1 - 1)).drop 2).length ≠ 13 := by
            rw [List.length_drop]
            omega
          tauto
        · rw [if_neg h4]
          by_cases h5 : ((pySlice raw 2 (pyGet raw 1 - 1)).drop 2).length ≠ 13
          · rw [if_pos h5]
            simp only [exceptIsOk]
            tauto
          · rw [if_neg h5]
            simp only [exceptIsOk]
            tauto

/-- **C9.** Every frame decoded with command word `0xB0F0` (default
recipe) yields a snapshot with `params = {}`, `named_params = {}` and
`profile = None`, regardless of any TLV bytes between the beverage ID
and the CRC: only `bev_id` (byte 4), `crc_ok` and `raw_hex` are
populated. -/
theorem default_recipe_ignores_tlv (raw : List Nat)
    (hlen : 6 ≤ raw.length) (hmark : pyGet raw 0 = 0xD0)
    (hcmd : (pyGet raw 2) <<< 8 ||| pyGet raw 3 = 0xB0F0) :
    ∃ s, decode_recipe raw = some s ∧ s.format = "default" ∧
      s.bev_id = pyGet raw 4 ∧ s.profile = none ∧
      s.params = [] ∧ s.named_params = [] := by
  unfold decode_recipe
  rw [if_neg (by omega), if_neg (by simp [hmark])]
  dsimp only
  rw [hcmd, if_neg (by decide), if_pos rfl]
  exact ⟨_, rfl, rfl, rfl, rfl, rfl, rfl⟩

/-- Witness for C9: a default-recipe frame carrying junk TLV bytes
still decodes with empty parameter maps. -/
theorem default_recipe_ignores_tlv_witness :
    ∃ s, decode_recipe [0xD0, 9, 0xB0, 0xF0, 5, 0x1B, 7, 0, 0] = some s ∧
      s.format = "default" ∧
      s.bev_id = pyGet [0xD0, 9, 0xB0, 0xF0, 5, 0x1B, 7, 0, 0] 4 ∧
      s.profile = none ∧ s.params = [] ∧ s.named_params = [] :=
  default_recipe_ignores_tlv [0xD0, 9, 0xB0, 0xF0, 5, 0x1B, 7, 0, 0]
    (by decide) (by decide) (by decide)

lemma pyGet_lt {l : List Nat} {i : Nat} (h : i < l.length) :
    l[i]? = some (pyGet l i) := by
  rw [List.getElem?_eq_getElem h]
  unfold pyGet
  rw [List.getD_eq_getElem l 0 h]

lemma pyGet_set_ne (l : List Nat) (i j b : Nat) (h : j ≠ i) :
    pyGet (l.set i b) j = pyGet l j := by
  unfold pyGet
  rw [List.getD_eq_getElem?_getD, List.getD_eq_getElem?_getD,
    List.getElem?_set_ne (by omega)]

lemma take_set_of_le (l : List Nat) (i k b : Nat) (h : k ≤ i) :
    (l.set i b).take k = l.take k := by
  apply List.ext_getElem?
  intro j
  by_cases hj : j < k
  · rw [List.getElem?_take_of_lt hj, List.getElem?_take_of_lt hj,
      List.getElem?_set_ne (by omega)]
  · rw [List.getElem?_take_eq_none (by omega),
      List.getElem?_take_eq_none (by omega)]

lemma pySlice_set_of_le (l : List Nat) (i a c b : Nat) (h : c ≤ i) :
    pySlice (l.set i b) a c = pySlice l a c := by
  unfold pySlice
  apply List.ext_getElem?
  intro j
  by_cases hj : j < c - a
  · rw [List.getElem?_take_of_lt hj, List.getElem?_take_of_lt hj,
      List.getElem?_drop, List.getElem?_drop,
      List.getElem?_set_ne (by omega)]
  · rw [List.getElem?_take_eq_none (by omega),
      List.getElem?_take_eq_none (by omega)]

lemma pySlice_set_inside_ne (l : List Nat) (i a c b : Nat)
    (ha : a ≤ i) (hc : i < c) (hclen : c ≤ l.length) (hb : b ≠ pyGet l i) :
    pySlice (l.set i b) a c ≠ pySlice l a c := by
  intro he
  have h1 : (pySlice (l.set i b) a c)[i - a]? = some b := by
    unfold pySlice
    rw [List.getElem?_take_of_lt (by omega), List.getElem?_drop,
      show a + (i - a) = i from by omega,
      List.getElem?_set_self (by omega)]
  have h2 : (pySlice l a c)[i - a]? = some (pyGet l i) := by
    unfold pySlice
    rw [List.getElem?_take_of_lt (by omega), List.getElem?_drop,
      show a + (i - a) = i from by omega]
    exact pyGet_lt (by omega)
  rw [he, h2] at h1
  injection h1 with h1
  exact hb h1.symm

/-- **C7.** For every otherwise well-formed recipe frame (marker `0xD0`,
command word `0xA6F0` or `0xB0F0`, declared length fitting the buffer,
correct CRC) in which one CRC byte has been changed, `decode_recipe`
still returns a snapshot with the same format, profile, bev_id and
params as for the uncorrupted frame, but with `crc_ok = false`; it
neither raises nor returns `None`. -/
theorem recipe_flipped_crc_decodes (raw : List Nat) (i b : Nat)
    (h6 : 6 ≤ raw.length)
    (hmark : pyGet raw 0 = 0xD0)
    (hL7 : 7 ≤ pyGet raw 1)
    (hLlen : pyGet raw 1 + 1 ≤ raw.length)
    (hcmd : (pyGet raw 2) <<< 8 ||| pyGet raw 3 = 0xA6F0 ∨
            (pyGet raw 2) <<< 8 ||| pyGet raw 3 = 0xB0F0)
    (hcrcok : crc16_ccitt (raw.take (pyGet raw 1 - 1))
        = pySlice raw (pyGet raw 1 - 1) (pyGet raw 1 + 1))
    (hi : i = pyGet raw 1 - 1 ∨ i = pyGet raw 1)
    (hb : b ≠ pyGet raw i) :
    ∃ s s', decode_recipe raw = some s ∧
      decode_recipe (raw.set i b) = some s' ∧
      s'.format = s.format ∧ s'.profile = s.profile ∧
      s'.bev_id = s.bev_id ∧ s'.params = s.params ∧
      s.crc_ok = true ∧ s'.crc_ok = false := by
  have hLi : pyGet raw 1 - 1 ≤ i := by omega
  have hlen' : (raw.set i b).length = raw.length := List.length_set raw i b
  have hget : ∀ j, j ≠ i → pyGet (raw.set i b) j = pyGet raw j :=
    fun j hj => pyGet_set_ne raw i j b hj
  have hg0 : pyGet (raw.set i b) 0 = pyGet raw 0 := hget 0 (by omega)
  have hg1 : pyGet (raw.set i b) 1 = pyGet raw 1 := hget 1 (by omega)
  have hg2 : pyGet (raw.set i b) 2 = pyGet raw 2 := hget 2 (by omega)
  have hg3 : pyGet (raw.set i b) 3 = pyGet raw 3 := hget 3 (by omega)
  have hg4 : pyGet (raw.set i b) 4 = pyGet raw 4 := hget 4 (by omega)
  have hg5 : pyGet (raw.set i b) 5 = pyGet raw 5 := hget 5 (by omega)
  have hfe : min (pyGet raw 1 + 1) raw.length = pyGet raw 1 + 1 :=
    Nat.min_eq_left hLlen
  have htake : (raw.set i b).take (pyGet raw 1 - 1)
      = raw.take (pyGet raw 1 - 1) := take_set_of_le raw i _ b hLi
  have hparams : pySlice (raw.set i b) 6 (pyGet raw 1 - 1)
      = pySlice raw 6 (pyGet raw 1 - 1) := pySlice_set_of_le raw i 6 _ b hLi
  have hcrcne : pySlice (raw.set i b) (pyGet raw 1 - 1) (pyGet raw 1 + 1)
      ≠ pySlice raw (pyGet raw 1 - 1) (pyGet raw 1 + 1) :=
    pySlice_set_inside_ne raw i _ _ b hLi (by omega) hLlen hb
  have hcrc_true : (crc16_ccitt (raw.take (pyGet raw 1 - 1))
      == pySlice raw (pyGet raw 1 - 1) (pyGet raw 1 + 1)) = true := by
    rw [beq_iff_eq]
    exact hcrcok
  have hcrc_false : (crc16_ccitt ((raw.set i b).take (pyGet raw 1 - 1))
      == pySlice (raw.set i b) (pyGet raw 1 - 1) (pyGet raw 1 + 1)) = false := by
    rw [htake, beq_eq_false_iff_ne]
    intro hc
    exact hcrcne (by rw [← hc, hcrcok])
  have hsub : pyGet raw 1 + 1 - 2 = pyGet raw 1 - 1 := by omega
  have hcrc_false2 : (crc16_ccitt (raw.take (pyGet raw 1 - 1))
      == pySlice (raw.set i b) (pyGet raw 1 - 1) (pyGet raw 1 + 1)) = false := by
    rw [beq_eq_false_iff_ne]
    intro hc
    exact hcrcne (by rw [← hc, hcrcok])
  rcases hcmd with hA | hB
  · have d1 : decode_recipe raw = some {
        format := "profile", bev_id := pyGet raw 5,
        profile := some (pyGet raw 4),
        params := parse_tlv_params (pySlice raw 6 (pyGet raw 1 - 1)),
        named_params :=
          named_params (parse_tlv_params (pySlice raw 6 (pyGet raw 1 - 1))),
        crc_ok := crc16_ccitt (raw.take (pyGet raw 1 - 1))
            == pySlice raw (pyGet raw 1 - 1) (pyGet raw 1 + 1),
        raw_hex := bytesHex raw } := by
      unfold decode_recipe
      rw [if_neg (by omega), if_neg (by simp [hmark])]
      dsimp only
      rw [hA, if_pos rfl, hfe, hsub]
    have d2 : decode_recipe (raw.set i b) = some {
        format := "profile", bev_id := pyGet raw 5,
        profile := some (pyGet raw 4),
        params := parse_tlv_params (pySlice raw 6 (pyGet raw 1 - 1)),
        named_params :=
          named_params (parse_tlv_params (pySlice raw 6 (pyGet raw 1 - 1))),
        crc_ok := crc16_ccitt (raw.take (pyGet raw 1 - 1))
            == pySlice (raw.set i b) (pyGet raw 1 - 1) (pyGet raw 1 + 1),
        raw_hex := bytesHex (raw.set i b) } := by
      unfold decode_recipe
      rw [if_neg (by omega), if_neg (by simp [hg0, hmark])]
      dsimp only
      rw [hg2, hg3, hA, if_pos rfl, hlen', hg1, hfe, hsub, hparams, hg5,
        hg4, htake]
    exact ⟨_, _, d1, d2, rfl, rfl, rfl, rfl, hcrc_true, hcrc_false2⟩
  · have d1 : decode_recipe raw = some {
        format := "default", bev_id := pyGet raw 4, profile := none,
        params := [], named_params := [],
        crc_ok := crc16_ccitt (raw.take (pyGet raw 1 - 1))
            == pySlice raw (pyGet raw 1 - 1) (pyGet raw 1 + 1),
        raw_hex := bytesHex raw } := by
      unfold decode_recipe
      rw [if_neg (by omega), if_neg (by simp [hmark])]
      dsimp only
      rw [hB, if_neg (by decide), if_pos rfl, hfe, hsub]
    have d2 : decode_recipe (raw.set i b) = some {
        format := "default", bev_id := pyGet raw 4, profile := none,
        params := [], named_params := [],
        crc_ok := crc16_ccitt (raw.take (pyGet raw 1 - 1))
            == pySlice (raw.set i b) (pyGet raw 1 - 1) (pyGet raw 1 + 1),
        raw_hex := bytesHex (raw.set i b) } := by
      unfold decode_recipe
      rw [if_neg (by omega), if_neg (by simp [hg0, hmark])]
      dsimp only
      rw [hg2, hg3, hB, if_neg (by decide), if_pos rfl, hlen', hg1, hfe,
        hsub, hg4, htake]
    exact ⟨_, _, d1, d2, rfl, rfl, rfl, rfl, hcrc_true, hcrc_false2⟩

/-- Witness for C7: a concrete profile recipe frame with a valid CRC
whose first CRC byte is changed from 40 to 41. -/
theorem recipe_flipped_crc_decodes_witness :
    ∃ s s', decode_recipe [0xD0, 9, 0xA6, 0xF0, 1, 2, 0x1B, 4, 40, 86] = some s ∧
      decode_recipe ([0xD0, 9, 0xA6, 0xF0, 1, 2, 0x1B, 4, 40, 86].set 8 41) = some s' ∧
      s'.format = s.format ∧ s'.profile = s.profile ∧
      s'.bev_id = s.bev_id ∧ s'.params = s.params ∧
      s.crc_ok = true ∧ s'.crc_ok = false :=
  recipe_flipped_crc_decodes [0xD0, 9, 0xA6, 0xF0, 1, 2, 0x1B, 4, 40, 86] 8 41
    (by decide) (by decide) (by decide) (by decide) (Or.inl (by decide))
    (by decide) (Or.inl (by decide)) (by decide)

lemma b64Index_b64Char : ∀ n, n < 64 → b64Index (b64Char n) = some n := by decide

lemma b64Char_ne_pad : ∀ n, n < 64 → b64Char n ≠ '=' := by decide

lemma b64_roundtrip (l : List Nat) (h : ∀ x ∈ l, x < 256) :
    b64decode (b64encode l) = some l := by
  induction l using b64encode.induct with
  | case1 => rfl
  | case2 a =>
    have ha := h a (by simp)
    have h1 := b64Index_b64Char (a / 4) (by omega)
    have h2 := b64Index_b64Char (a % 4 * 16) (by omega)
    simp only [b64encode, b64decode, h1, h2, and_self, if_true]
    norm_num
    omega
  | case3 a b =>
    have ha := h a (by simp)
    have hb := h b (by simp)
    have h1 := b64Index_b64Char (a / 4) (by omega)
    have h2 := b64Index_b64Char (a % 4 * 16 + b / 16) (by omega)
    have h3 := b64Index_b64Char (b % 16 * 4) (by omega)
    have hne := eq_false (b64Char_ne_pad (b % 16 * 4) (by omega))
    simp only [b64encode, b64decode, h1, h2, h3, hne, false_and, if_false,
      and_self, if_true]
    norm_num
    constructor <;> omega
  | case4 a b c rest ih =>
    have ha := h a (by simp)
    have hb := h b (by simp)
    have hc := h c (by simp)
    have h1 := b64Index_b64Char (a / 4) (by omega)
    have h2 := b64Index_b64Char (a % 4 * 16 + b / 16) (by omega)
    have h3 := b64Index_b64Char (b % 16 * 4 + c / 64) (by omega)
    have h4 := b64Index_b64Char (c % 64) (by omega)
    have hne3 := eq_false (b64Char_ne_pad (b % 16 * 4 + c / 64) (by omega))
    have hne4 := eq_false (b64Char_ne_pad (c % 64) (by omega))
    have hrest := ih (fun x hx => h x (by simp [hx]))
    simp only [b64encode, b64decode, h1, h2, h3, h4, hne3, hne4, false_and,
      if_false, hrest]
    norm_num
    refine ⟨by omega, by omega, by omega⟩

lemma chunks16Fuel_flatten : ∀ (fuel : Nat) (l : List Nat), l.length ≤ fuel →
    (chunks16Fuel fuel l).flatten = l := by
  intro fuel
  induction fuel with
  | zero =>
    intro l h
    cases l with
    | nil => rfl
    | cons x xs => simp at h
  | succ n ih =>
    intro l h
    cases l with
    | nil => rfl
    | cons x xs =>
      simp only [chunks16Fuel, List.flatten_cons]
      rw [ih _ (by rw [List.length_drop]; simp at h ⊢; omega)]
      exact List.take_append_drop 16 (x :: xs)

lemma chunks16_flatten (l : List Nat) : (chunks16 l).flatten = l :=
  chunks16Fuel_flatten _ _ le_rfl

lemma chunks16Fuel_blocks : ∀ (fuel : Nat) (l : List Nat), l.length ≤ fuel →
    16 ∣ l.length → ∀ b ∈ chunks16Fuel fuel l, b.length = 16 := by
  intro fuel
  induction fuel with
  | zero =>
    intro l _ _ b hb
    simp [chunks16Fuel] at hb
  | succ n ih =>
    intro l hlen hdvd b hb
    cases l with
    | nil => simp [chunks16Fuel] at hb
    | cons x xs =>
      have h16 : 16 ≤ (x :: xs).length := by
        rcases hdvd with ⟨k, hk⟩
        simp at hk ⊢
        omega
      simp only [chunks16Fuel, List.mem_cons] at hb
      rcases hb with hb | hb
      · rw [hb, List.length_take]
        omega
      · refine ih _ ?_ ?_ b hb
        · rw [List.length_drop]
          simp at hlen ⊢
          omega
        · rw [List.length_drop]
          rcases hdvd with ⟨k, hk⟩
          exact ⟨k - 1, by omega⟩

lemma chunks16_blocks (l : List Nat) (hd : 16 ∣ l.length) :
    ∀ b ∈ chunks16 l, b.length = 16 :=
  chunks16Fuel_blocks _ _ le_rfl hd

lemma chunks16Fuel_of_blocks (cs : List (List Nat)) :
    ∀ (fuel : Nat), (∀ b ∈ cs, b.length = 16) → cs.flatten.length ≤ fuel →
    chunks16Fuel fuel cs.flatten = cs := by
  induction cs with
  | nil =>
    intro fuel _ _
    cases fuel <;> rfl
  | cons b bs ih =>
    intro fuel hlen hfuel
    have hb : b.length = 16 := hlen b (by simp)
    rcases fuel with _ | f
    · rw [List.flatten_cons, List.length_append, hb] at hfuel
      omega
    · rcases b with _ | ⟨y, ys⟩
      · simp at hb
      · rw [List.flatten_cons]
        show chunks16Fuel (f + 1) (y :: (ys ++ bs.flatten)) = _
        simp only [chunks16Fuel]
        rw [show (y :: (ys ++ bs.flatten)) = (y :: ys) ++ bs.flatten from rfl]
        rw [show (16 : Nat) = (y :: ys).length from hb.symm, List.take_left,
          List.drop_left]
        rw [ih f (fun c hc => hlen c (by simp [hc])) ?_]
        rw [List.flatten_cons, List.length_append, hb] at hfuel
        omega

lemma chunks16_of_blocks (cs : List (List Nat)) (h : ∀ b ∈ cs, b.length = 16) :
    chunks16 cs.flatten = cs :=
  chunks16Fuel_of_blocks cs _ h le_rfl

lemma xorBytes_length (a b : List Nat) (ha : a.length = 16) (hb : b.length = 16) :
    (xorBytes a b).length = 16 := by
  simp [xorBytes, ha, hb]

lemma xorBytes_bytes (a b : List Nat) (ha : ∀ y ∈ a, y < 256)
    (hb : ∀ y ∈ b, y < 256) : ∀ y ∈ xorBytes a b, y < 256 := by
  induction a generalizing b with
  | nil => intro y hy; simp [xorBytes] at hy
  | cons x xs ih =>
    cases b with
    | nil => intro y hy; simp [xorBytes] at hy
    | cons z zs =>
      intro y hy
      simp only [xorBytes, List.zipWith_cons_cons, List.mem_cons] at hy
      rcases hy with hy | hy
      · rw [hy]
        have h1 : x < 256 := ha x (by simp)
        have h2 : z < 256 := hb z (by simp)
        have h8 : (256 : Nat) = 2 ^ 8 := by norm_num
        rw [h8] at h1 h2 ⊢
        exact Nat.xor_lt_two_pow h1 h2
      · exact ih zs (fun u hu => ha u (by simp [hu]))
          (fun u hu => hb u (by simp [hu])) y hy

lemma xorBytes_cancel (iv b : List Nat) (h : iv.length = b.length) :
    xorBytes iv (xorBytes iv b) = b := by
  induction iv generalizing b with
  | nil =>
    cases b with
    | nil => rfl
    | cons y ys => simp at h
  | cons x xs ih =>
    cases b with
    | nil => simp at h
    | cons y ys =>
      simp only [xorBytes, List.zipWith_cons_cons]
      rw [Nat.xor_cancel_left]
      rw [List.length_cons, List.length_cons] at h
      have hys := ih ys (by omega)
      unfold xorBytes at hys
      rw [hys]

lemma cbcDec_cbcEnc (E D : List Nat → List Nat) (iv : List Nat)
    (bs : List (List Nat))
    (hE : ∀ x, x.length = 16 → (∀ y ∈ x, y < 256) →
      (E x).length = 16 ∧ ∀ y ∈ E x, y < 256)
    (hED : ∀ x, x.length = 16 → (∀ y ∈ x, y < 256) → D (E x) = x)
    (hiv : iv.length = 16) (hivb : ∀ y ∈ iv, y < 256)
    (hbs : ∀ b ∈ bs, b.length = 16 ∧ ∀ y ∈ b, y < 256) :
    cbcDecBlocks D iv (cbcEncBlocks E iv bs) = bs := by
  induction bs generalizing iv with
  | nil => rfl
  | cons b bs ih =>
    have hb := hbs b (by simp)
    have hxb : (xorBytes iv b).length = 16 := xorBytes_length iv b hiv hb.1
    have hxbb : ∀ y ∈ xorBytes iv b, y < 256 := xorBytes_bytes iv b hivb hb.2
    have hEx := hE _ hxb hxbb
    simp only [cbcEncBlocks, cbcDecBlocks]
    rw [hED _ hxb hxbb, xorBytes_cancel iv b (by omega),
      ih (E (xorBytes iv b)) hEx.1 hEx.2 (fun c hc => hbs c (by simp [hc]))]

lemma cbcEncBlocks_bytes (E : List Nat → List Nat)
    (hE : ∀ x, x.length = 16 → (∀ y ∈ x, y < 256) →
      (E x).length = 16 ∧ ∀ y ∈ E x, y < 256) :
    ∀ (bs : List (List Nat)) (iv : List Nat), iv.length = 16 →
    (∀ y ∈ iv, y < 256) →
    (∀ b ∈ bs, b.length = 16 ∧ ∀ y ∈ b, y < 256) →
    ∀ c ∈ cbcEncBlocks E iv bs, c.length = 16 ∧ ∀ y ∈ c, y < 256 := by
  intro bs
  induction bs with
  | nil =>
    intro iv _ _ _ c hc
    simp [cbcEncBlocks] at hc
  | cons b bs ih =>
    intro iv hiv hivb hbs c hc
    have hb := hbs b (by simp)
    have hxb : (xorBytes iv b).length = 16 := xorBytes_length iv b hiv hb.1
    have hxbb : ∀ y ∈ xorBytes iv b, y < 256 := xorBytes_bytes iv b hivb hb.2
    have hEx := hE _ hxb hxbb
    simp only [cbcEncBlocks, List.mem_cons] at hc
    rcases hc with hc | hc
    · rw [hc]
      exact hEx
    · exact ih (E (xorBytes iv b)) hEx.1 hEx.2
        (fun d hd => hbs d (by simp [hd])) c hc

lemma chunks16Fuel_subset : ∀ (fuel : Nat) (l : List Nat),
    ∀ b ∈ chunks16Fuel fuel l, ∀ y ∈ b, y ∈ l := by
  intro fuel
  induction fuel with
  | zero =>
    intro l b hb
    simp [chunks16Fuel] at hb
  | succ n ih =>
    intro l b hb
    cases l with
    | nil => simp [chunks16Fuel] at hb
    | cons x xs =>
      simp only [chunks16Fuel, List.mem_cons] at hb
      rcases hb with hb | hb
      · rw [hb]
        intro y hy
        exact List.take_subset _ _ hy
      · intro y hy
        exact List.drop_subset _ _ (ih _ b hb y hy)

lemma chunks16_subset (l : List Nat) :
    ∀ b ∈ chunks16 l, ∀ y ∈ b, y ∈ l :=
  chunks16Fuel_subset _ _

lemma pad_zero_dvd (msg : List Nat) : 16 ∣ (pad_zero msg 16).length := by
  simp only [pad_zero, List.length_append, List.length_replicate]
  omega

lemma pad_zero_bytes (msg : List Nat) (h : ∀ x ∈ msg, x < 256) :
    ∀ x ∈ pad_zero msg 16, x < 256 := by
  intro x hx
  rcases List.mem_append.mp hx with h1 | h2
  · exact h x h1
  · have := List.eq_of_mem_replicate h2
    omega

lemma pyFind_append_zeros (msg : List Nat) (k : Nat) (hk : 1 ≤ k)
    (h : ∀ x ∈ msg, x ≠ 0) :
    pyFind (msg ++ List.replicate k 0) 0 = some msg.length := by
  induction msg with
  | nil =>
    rcases k with _ | k
    · omega
    · simp [pyFind, List.replicate]
  | cons a ms ih =>
    simp only [List.cons_append, pyFind, if_neg (h a (by simp))]
    show (pyFind (ms ++ List.replicate k 0) 0).map (· + 1) = _
    rw [ih (fun x hx => h x (by simp [hx]))]
    rfl

lemma pyFind_eq_none (data : List Nat) (h : ∀ x ∈ data, x ≠ 0) :
    pyFind data 0 = none := by
  induction data with
  | nil => rfl
  | cons a ds ih =>
    simp only [pyFind, if_neg (h a (by simp))]
    rw [ih (fun x hx => h x (by simp [hx]))]
    rfl

lemma unpad_pad (msg : List Nat) (hnz : ∀ x ∈ msg, x ≠ 0) :
    unpad_zero (pad_zero msg 16) = msg := by
  unfold unpad_zero pad_zero
  rw [pyFind_append_zeros msg _ (by omega) hnz]
  exact List.take_left msg _

/-- **C3.** For every plaintext byte string with no embedded zero byte,
every 16-byte IV and every block cipher pair `E`/`D` that are mutually
inverse on 16-byte blocks (AES encryption/decryption under any valid
key), `aes_decrypt (aes_encrypt msg) = msg`: encryption zero-pads to a
16-byte boundary (a full zero block when already aligned), CBC-encrypts
and base64-encodes; decryption reverses this and truncates at the first
zero byte. -/
theorem aes_encrypt_decrypt_roundtrip (E D : List Nat → List Nat)
    (iv msg : List Nat)
    (hE : ∀ x, x.length = 16 → (∀ y ∈ x, y < 256) →
      (E x).length = 16 ∧ ∀ y ∈ E x, y < 256)
    (hED : ∀ x, x.length = 16 → (∀ y ∈ x, y < 256) → D (E x) = x)
    (hiv : iv.length = 16) (hivb : ∀ y ∈ iv, y < 256)
    (hmsg : ∀ x ∈ msg, x < 256) (hnz : ∀ x ∈ msg, x ≠ 0) :
    aes_decrypt D iv (aes_encrypt E iv msg) = some msg := by
  unfold aes_encrypt aes_decrypt
  have hblocks : ∀ b ∈ chunks16 (pad_zero msg 16),
      b.length = 16 ∧ ∀ y ∈ b, y < 256 := by
    intro b hb
    refine ⟨chunks16_blocks _ (pad_zero_dvd msg) b hb, ?_⟩
    intro y hy
    exact pad_zero_bytes msg hmsg y (chunks16_subset _ b hb y hy)
  have hencb := cbcEncBlocks_bytes E hE (chunks16 (pad_zero msg 16)) iv hiv
    hivb hblocks
  have hflatb : ∀ y ∈ (cbcEncBlocks E iv (chunks16 (pad_zero msg 16))).flatten,
      y < 256 := by
    intro y hy
    rcases List.mem_flatten.mp hy with ⟨c, hc, hyc⟩
    exact (hencb c hc).2 y hyc
  rw [b64_roundtrip _ hflatb]
  simp only [Option.map_some']
  congr 1
  rw [chunks16_of_blocks _ (fun c hc => (hencb c hc).1),
    cbcDec_cbcEnc E D iv _ hE hED hiv hivb hblocks,
    chunks16_flatten]
  exact unpad_pad msg hnz

/-- Witness for C3: identity block cipher, all-zero IV, plaintext
"hi". -/
theorem aes_encrypt_decrypt_roundtrip_witness :
    aes_decrypt (fun b => b) (List.replicate 16 0)
      (aes_encrypt (fun b => b) (List.replicate 16 0) [104, 105])
        = some [104, 105] :=
  aes_encrypt_decrypt_roundtrip (fun b => b) (fun b => b)
    (List.replicate 16 0) [104, 105]
    (fun _ hx hb => ⟨hx, hb⟩)
    (fun _ _ _ => rfl) (by decide) (by decide) (by decide) (by decide)

/-- **C10.** For every byte string containing no zero byte at all,
`unpad_zero` returns the input with its final byte removed (the
sentinel search yields `-1` and the `[:-1]` slice drops the last byte);
consequently `aes_decrypt` silently loses the last plaintext byte
whenever the CBC-decrypted data contains no `0x00`. -/
theorem unpad_zero_no_sentinel (data : List Nat) (h : ∀ x ∈ data, x ≠ 0) :
    unpad_zero data = data.dropLast ∧
    ∀ (D : List Nat → List Nat) (iv : List Nat) (enc : List Char)
      (decoded : List Nat),
      b64decode enc = some decoded →
      (cbcDecBlocks D iv (chunks16 decoded)).flatten = data →
      aes_decrypt D iv enc = some data.dropLast := by
  have h1 : unpad_zero data = data.dropLast := by
    unfold unpad_zero
    rw [pyFind_eq_none data h, List.dropLast_eq_take]
  refine ⟨h1, ?_⟩
  intro D iv enc decoded hdec hflat
  unfold aes_decrypt
  rw [hdec]
  simp only [Option.map_some', hflat, h1]

/-- Witness for C10: identity cipher, zero IV; the 16 decrypted bytes
are all ones, so the last byte is silently dropped. -/
theorem unpad_zero_no_sentinel_witness :
    unpad_zero (List.replicate 16 1) = (List.replicate 16 1).dropLast ∧
    ∀ (D : List Nat → List Nat) (iv : List Nat) (enc : List Char)
      (decoded : List Nat),
      b64decode enc = some decoded →
      (cbcDecBlocks D iv (chunks16 decoded)).flatten = List.replicate 16 1 →
      aes_decrypt D iv enc = some (List.replicate 16 1).dropLast :=
  unpad_zero_no_sentinel (List.replicate 16 1) (by decide)

lemma hexCharVal_hexDigitChar : ∀ n, n < 16 →
    hexCharVal (hexDigitChar n) = n := by decide

lemma bytesFromHex_bytesHex (l : List Nat) (h : ∀ x ∈ l, x < 256) :
    bytesFromHex (bytesHex l) = l := by
  induction l with
  | nil => rfl
  | cons b bs ih =>
    have hb := h b (by simp)
    show bytesFromHex (hexDigitChar (b / 16) :: hexDigitChar (b % 16)
        :: bytesHex bs) = b :: bs
    simp only [bytesFromHex]
    rw [hexCharVal_hexDigitChar (b / 16) (by omega),
      hexCharVal_hexDigitChar (b % 16) (by omega),
      ih (fun x hx => h x (by simp [hx]))]
    congr 1
    omega

lemma bytesHex_take (l : List Nat) : ∀ (k : Nat),
    (bytesHex l).take (2 * k) = bytesHex (l.take k) := by
  induction l with
  | nil => intro k; simp [bytesHex]
  | cons b bs ih =>
    intro k
    rcases k with _ | k
    · rfl
    · show (hexDigitChar (b / 16) :: hexDigitChar (b % 16)
          :: bytesHex bs).take (2 * (k + 1)) = _
      rw [show 2 * (k + 1) = 2 * k + 1 + 1 from by omega,
        List.take_succ_cons, List.take_succ_cons, ih k]
      rfl

lemma extract_bits_take16 (l : List Nat) (h : ∀ x ∈ l, x < 256) :
    extract_bits l 0 (16 * 2) = l.take 16 := by
  unfold extract_bits
  rw [List.drop_zero, show (16 * 2 - 0 : Nat) = 2 * 16 from rfl,
    bytesHex_take]
  exact bytesFromHex_bytesHex _ (fun x hx => h x (List.take_subset _ _ hx))

/-- **C2.** For every HMAC function `H` whose digests are byte strings
(HMAC-SHA256 produces 32 bytes), `derive_keys` is deterministic (a pure
function) and returns exactly the five secrets of the spec formula:
`H(lan_key, H(lan_key, M) || M)` with `M` the app-ordered nonce
concatenation plus discriminator `0x30`/`0x31`/`0x32` for the
app-direction signing/crypto/IV secrets, and the device-ordered
concatenation plus `0x31`/`0x32` for the device-direction crypto/IV
secrets, IV seeds truncated to the first 16 digest bytes; no
device-direction signing key is derived. -/
theorem derive_keys_matches_spec (H : List Nat → List Nat → List Nat)
    (hH : ∀ k d, ∀ y ∈ H k d, y < 256)
    (lan_key r1 r2 t1 t2 : List Nat) :
    derive_keys H lan_key r1 r2 t1 t2
      = specDeriveKeys H lan_key r1 r2 t1 t2 := by
  unfold derive_keys specDeriveKeys specSecret
  dsimp only
  rw [extract_bits_take16 _ (hH _ _), extract_bits_take16 _ (hH _ _)]

/-- Witness for C2 at a concrete `H` and concrete nonces. -/
theorem derive_keys_matches_spec_witness :
    derive_keys (fun _ _ => List.replicate 32 7) [1] [2] [3] [4] [5]
      = specDeriveKeys (fun _ _ => List.replicate 32 7) [1] [2] [3] [4] [5] :=
  derive_keys_matches_spec (fun _ _ => List.replicate 32 7)
    (fun _ _ y hy => by
      have := List.eq_of_mem_replicate hy
      omega)
    [1] [2] [3] [4] [5]

/-- **C8 counterexample.** The claim fails in two ways: a flag whose
configured bit index is 8 (outside 0-7, constructible by bypassing
`FlagDefinition.validate`) makes dynamic attribute access raise the
`get_bit` `ValueError` instead of returning `None`; and an `equals`
predicate evaluated with the frame missing returns the comparison of
`None` with the configured value (here `False`), not `None`. -/
theorem monitor_view_none_claim_false :
    viewGetAttr
      (some { direction := 0, request_id := 0, answer_required := 0,
              accessory := 0, switches := [0, 0], alarms := [0, 0, 0, 0],
              status := 0, action := 0, progress := 0, timestamp := [],
              extra := [], raw := [] })
      [("grinding", { source := "alarms", byte := 0, bit := 8, invert := false })]
      [] "grinding" = .error "bit_index must be between 0 and 7" ∧
    viewGetAttr none []
      [("is_ready", { kind := "equals", source := some "status",
                      value := PyVal.pyint 5, values := none, flag := none,
                      byte := none, bit := none })]
      "is_ready" = .ok (some false) := ⟨rfl, rfl⟩

/-- **C8 (amended).** For every snapshot and profile: resolving a named
flag whose definition has a bit index within 0-7 (as
`FlagDefinition.validate` enforces at profile load) never raises, and
returns `None` whenever the frame is missing or the configured byte
offset falls outside the selected alarms/switches array; evaluating a
named predicate never raises; bit-addressed predicates return `None`
whenever the frame is missing, the byte or bit is unset, the byte is
out of range, or the bit index is outside 0-7; and flag-based
predicates return `None` whenever the frame is missing. -/
theorem monitor_view_oob_none (frame : Option MonitorFrame)
    (flags : List (String × FlagDefinition))
    (preds : List (String × PredicateDefinition)) :
    (∀ name fd, lookupStr flags name = some fd → fd.bit ≤ 7 →
      (∃ v, viewGetAttr frame flags preds name = .ok v) ∧
      (frame = none → viewGetAttr frame flags preds name = .ok none) ∧
      (∀ f, frame = some f →
        fd.byte ≥ (if fd.source == "alarms" then f.alarms
                   else f.switches).length →
        viewGetAttr frame flags preds name = .ok none)) ∧
    (∀ name d, lookupStr flags name = none → lookupStr preds name = some d →
      viewGetAttr frame flags preds name = .ok (evaluatePredicate frame flags d) ∧
      (d.uses_bit_address = true →
        (frame = none ∨ d.byte = none ∨ d.bit = none ∨
          (∃ f byte, frame = some f ∧ d.byte = some byte ∧
            byte ≥ (if d.source.getD "" == "alarms" then f.alarms
                    else f.switches).length) ∨
          (∃ bit, d.bit = some bit ∧ bit > 7)) →
        evaluatePredicate frame flags d = none) ∧
      (d.uses_flag = true → frame = none →
        evaluatePredicate frame flags d = none)) := by
  constructor
  · intro name fd hlk hbit
    have hsome : (lookupStr flags name).isSome := by rw [hlk]; rfl
    have hview : viewGetAttr frame flags preds name = resolveFlag frame flags name := by
      unfold viewGetAttr
      rw [if_pos hsome]
    rw [hview]
    cases frame with
    | none => exact ⟨⟨none, rfl⟩, fun _ => rfl, fun f hf => Option.noConfusion hf⟩
    | some f =>
      refine ⟨?_, fun hc => Option.noConfusion hc, ?_⟩
      · unfold resolveFlag
        rw [hlk]
        dsimp only
        by_cases hoob : fd.byte ≥ (if fd.source == "alarms" then f.alarms
            else f.switches).length
        · rw [if_pos hoob]
          exact ⟨none, rfl⟩
        · rw [if_neg hoob]
          unfold get_bit
          rw [if_neg (by omega)]
          exact ⟨_, rfl⟩
      · intro f' hf' hoob
        injection hf' with hf'
        subst hf'
        unfold resolveFlag
        rw [hlk]
        dsimp only
        rw [if_pos hoob]
  · intro name d hflag hpred
    have hnone : ¬ (lookupStr flags name).isSome := by rw [hflag]; simp
    have hview : viewGetAttr frame flags preds name
        = .ok (evaluatePredicate frame flags d) := by
      unfold viewGetAttr
      rw [if_neg hnone, hpred]
    refine ⟨hview, ?_, ?_⟩
    · intro hba hcond
      have hnf : d.uses_flag = false := by
        unfold PredicateDefinition.uses_bit_address at hba
        unfold PredicateDefinition.uses_flag
        rcases Bool.or_eq_true_iff.mp hba with h | h
        · rw [beq_iff_eq] at h
          rw [h]
          rfl
        · rw [beq_iff_eq] at h
          rw [h]
          rfl
      unfold evaluatePredicate evaluatePredicateCore
      rw [hnf, hba]
      simp only [Bool.false_eq_true, if_false, if_true]
      rcases hcond with hc | hc | hc | ⟨f, byte, hf, hbyte, hoob⟩ | ⟨bit, hbitv, hbit7⟩
      · rw [hc]
      · cases frame with
        | none => rfl
        | some f =>
          dsimp only
          by_cases hsf : strFalsy d.source = true
          · rw [if_pos hsf]
          · rw [if_neg hsf, hc]
      · cases frame with
        | none => rfl
        | some f =>
          dsimp only
          by_cases hsf : strFalsy d.source = true
          · rw [if_pos hsf]
          · rw [if_neg hsf, hc]
            rcases hb : d.byte with _ | byte <;> rfl
      · rw [hf]
        dsimp only
        by_cases hsf : strFalsy d.source = true
        · rw [if_pos hsf]
        · rw [if_neg hsf, hbyte]
          rcases hb : d.bit with _ | bit
          · rfl
          · dsimp only
            rw [if_pos hoob]
      · cases frame with
        | none => rfl
        | some f =>
          dsimp only
          by_cases hsf : strFalsy d.source = true
          · rw [if_pos hsf]
          · rw [if_neg hsf, hbitv]
            rcases hb : d.byte with _ | byte
            · rfl
            · dsimp only
              by_cases hoob : byte ≥ (if d.source.getD "" == "alarms" then f.alarms
                  else f.switches).length
              · rw [if_pos hoob]
              · rw [if_neg hoob]
                unfold get_bit
                rw [if_pos (by omega)]
    · intro hf hfr
      subst hfr
      unfold evaluatePredicate evaluatePredicateCore
      rw [hf]
      simp only [if_true]
      rfl

/-- Witness for C8 (amended): a missing frame yields `ok None` for a
flag, and a bit-addressed predicate with a missing frame evaluates to
`None`. -/
theorem monitor_view_oob_none_witness :
    viewGetAttr none
      [("f", { source := "alarms", byte := 9, bit := 3, invert := false })]
      [] "f" = .ok none ∧
    evaluatePredicate none []
      { kind := "bit_set", source := some "alarms", value := PyVal.pynone,
        values := none, flag := none, byte := some 0, bit := some 2 } = none :=
  ⟨((monitor_view_oob_none none
      [("f", { source := "alarms", byte := 9, bit := 3, invert := false })]
      []).1 "f"
      { source := "alarms", byte := 9, bit := 3, invert := false }
      rfl (by decide)).2.1 rfl,
   ((monitor_view_oob_none none []
      [("p", { kind := "bit_set", source := some "alarms",
               value := PyVal.pynone, values := none, flag := none,
               byte := some 0, bit := some 2 })]).2 "p"
      { kind := "bit_set", source := some "alarms", value := PyVal.pynone,
        values := none, flag := none, byte := some 0, bit := some 2 }
      rfl rfl).2.1 rfl (Or.inl rfl)⟩

end Cremalink
